import Mathlib

/-!
Verification of the `slots` betting/reward program
(`src/program/programs/slots/src/lib.rs`).

The handlers are shallowly embedded as pure Lean functions over explicit
state.  Machine integers are modelled as `ℕ` (for `u64`/`u16`) and `ℤ`
(for `i64`):

* plain Rust arithmetic (`+=`, `-=`, `*=`, `<<`) wraps modulo the word
  size, matching the release build this program ships with (the xorshift
  multiply and the `u16` spin counter rely on wrapping, so overflow
  checks are off for plain operators);
* `checked_add`/`checked_sub` followed by `.unwrap()` abort the whole
  instruction on overflow, modelled by `Except` with `TxError.overflowAbort`;
* the `f64` computation in `spin` is modelled over `ℚ` parametrised by a
  rounding function `rnd : ℚ → ℚ` standing for binary64 round-to-nearest;
  the only property used is that rounding fixes every value on the
  binary64 grid (`FaithfulRound`), which holds for every IEEE-754
  rounding mode.
-/

namespace Slots

/-! ### Constants from the source -/

def BET_AMOUNT : ℕ := 100000000

def HOLDER_REWARD_PERCENTAGE : ℕ := 10

def MIN_HOLDER_BALANCE : ℕ := 1000000000

def PAYOUT_INTERVAL : ℤ := 86400

def RENT : ℕ := 967440

/-- The `u64` modulus. -/
def U64 : ℕ := 2 ^ 64

/-- The `u16` modulus. -/
def U16 : ℕ := 2 ^ 16

/-! ### Machine arithmetic -/

/-- Wrapping `u64` addition (Rust `+=` with overflow checks off). -/
def wadd64 (a b : ℕ) : ℕ := (a + b) % U64

/-- Wrapping `u64` subtraction (Rust `-=` with overflow checks off). -/
def wsub64 (a b : ℕ) : ℕ := (a + (U64 - b % U64)) % U64

/-- Rust `u64::checked_add`. -/
def cadd64 (a b : ℕ) : Option ℕ := if a + b < U64 then some (a + b) else none

/-- Rust `u64::checked_sub`. -/
def csub64 (a b : ℕ) : Option ℕ := if b ≤ a then some (a - b) else none

/-- Wrapping `i64` addition (Rust `+` on `i64` with overflow checks off). -/
def i64add (a b : ℤ) : ℤ := (a + b + 2 ^ 63) % 2 ^ 64 - 2 ^ 63

/-! ### Binary64 model -/

/-- A rational lies on the binary64 grid: it is `m * 2^k` with `|m| < 2^53`.
(The exponent range is not constrained; every quantity in this program is
far from binary64 overflow and subnormal territory.) -/
def repF64 (q : ℚ) : Prop :=
  ∃ m k : ℤ, m.natAbs ≤ 2 ^ 53 - 1 ∧ q = (m : ℚ) * (2 : ℚ) ^ k

/-- The defining property of IEEE-754 binary64 rounding used here: values
already on the grid are returned unchanged (true in every rounding mode). -/
def FaithfulRound (rnd : ℚ → ℚ) : Prop := ∀ q, repF64 q → rnd q = q

/-- Rust `as u64` on an `f64`: truncate toward zero, saturating at the
`u64` range. -/
def f64toU64 (q : ℚ) : ℕ :=
  if q < 0 then 0 else min (Int.toNat ⌊q⌋) (U64 - 1)

/-- The holder-reward computation of `spin`, line 149 of the source:
`(win_amount as f64 * HOLDER_REWARD_PERCENTAGE as f64 / 100.0) as u64`.
Each `rnd` application is one binary64 rounding: the `u64 → f64` cast,
the product, and the quotient. -/
def holderRewardOf (rnd : ℚ → ℚ) (win_amount : ℕ) : ℕ :=
  f64toU64 (rnd (rnd (rnd (win_amount : ℚ) * (HOLDER_REWARD_PERCENTAGE : ℚ)) / 100))

/-! ### Data model -/

inductive ErrorCode
  | InsufficientHolderBalance
  | NoRewardsToDistribute
  | NoHoldersRegistered
  | PayoutTooEarly
  | NotRegisteredHolder
deriving DecidableEq

/-- How an instruction can fail: a `require!` error code, a `.unwrap()`
panic on checked arithmetic (aborting the transaction), or the system
program refusing the stake transfer. -/
inductive TxError
  | code (e : ErrorCode)
  | overflowAbort
  | insufficientFunds
deriving DecidableEq

structure Vault where
  spin : ℕ
  seed : ℕ
  total_holder_rewards : ℕ
  last_payout_time : ℤ
deriving DecidableEq

structure UserVault where
  rewards_claimed : ℕ
deriving DecidableEq

structure HolderRegistry where
  holders : List ℕ
  last_updated : ℤ
deriving DecidableEq

/-! ### Instruction handlers -/

/-- `init` (source lines 19-28). -/
def init (now : ℤ) : Vault :=
  { spin := 0, seed := RENT, total_holder_rewards := 0, last_payout_time := now }

/-- `init_holder_registry` (source lines 30-35). -/
def init_holder_registry (now : ℤ) : HolderRegistry :=
  { holders := [], last_updated := now }

/-- `create_user_vault` (source lines 37-43). -/
def create_user_vault : UserVault := { rewards_claimed := 0 }

/-- `register_as_holder` (source lines 45-62).  `signerLamports` is the
signer's spendable balance at call time. -/
def register_as_holder (now : ℤ) (reg : HolderRegistry) (signer : ℕ)
    (signerLamports : ℕ) : Except TxError HolderRegistry :=
  if signerLamports < MIN_HOLDER_BALANCE then
    .error (.code .InsufficientHolderBalance)
  else if signer ∈ reg.holders then .ok reg
  else .ok { holders := reg.holders ++ [signer], last_updated := now }

/-- `distribute_holder_rewards` (source lines 64-103).  Returns the new
vault state, the treasury's lamports and the caller's user-vault lamports.
The raw lamport updates are the source's plain `-=`/`+=`, the pool update
is `checked_sub(..).unwrap()`. -/
def distribute_holder_rewards (now : ℤ) (v : Vault) (vaultLamports : ℕ)
    (reg : HolderRegistry) (uvLamports : ℕ) (signer : ℕ) :
    Except TxError (Vault × ℕ × ℕ) :=
  if ¬ i64add v.last_payout_time PAYOUT_INTERVAL ≤ now then
    .error (.code .PayoutTooEarly)
  else if ¬ 0 < v.total_holder_rewards then
    .error (.code .NoRewardsToDistribute)
  else if ¬ 0 < reg.holders.length then
    .error (.code .NoHoldersRegistered)
  else if ¬ signer ∈ reg.holders then
    .error (.code .NotRegisteredHolder)
  else
    let reward_per_holder := v.total_holder_rewards / reg.holders.length
    match csub64 v.total_holder_rewards reward_per_holder with
    | none => .error .overflowAbort
    | some pool2 =>
      .ok ({ spin := v.spin, seed := v.seed, total_holder_rewards := pool2,
             last_payout_time := if pool2 = 0 then now else v.last_payout_time },
           wsub64 vaultLamports reward_per_holder,
           wadd64 uvLamports reward_per_holder)

/-- The xorshift64* state update of `spin` (source lines 109-113); the
shift-left and the multiply wrap modulo `2^64`. -/
def xorshiftStar (s : ℕ) : ℕ :=
  let a := s ^^^ (s >>> 12)
  let b := a ^^^ ((a <<< 25) % U64)
  let c := b ^^^ (b >>> 27)
  c * 0x2545F4914F6CDD1D % U64

/-- The tier classification of `spin` (source lines 118-133): the pair
`(win, win_amount)` as a function of `win_decider`. -/
def tierWin (d : ℕ) : ℕ × ℕ :=
  if d > 17 then (3, BET_AMOUNT * 2)
  else if d > 14 then (2, BET_AMOUNT)
  else if d > 8 then (1, BET_AMOUNT / 2)
  else (0, 0)

structure SpinResult where
  vault : Vault
  vaultLamports : ℕ
  signerLamports : ℕ
  uvLamports : ℕ
  win : ℕ
  win_amount : ℕ
deriving DecidableEq

/-- `spin` (source lines 105-161).  The caller's stake transfer is the
system-program CPI (fails on insufficient funds, whole instruction
reverted); on a win, the pool addition is `checked_add(..).unwrap()` and
the lamport moves are plain `-=`/`+=`. -/
def spin (rnd : ℚ → ℚ) (v : Vault) (vaultLamports signerLamports uvLamports : ℕ) :
    Except TxError SpinResult :=
  let seed := xorshiftStar v.seed
  let win_decider := seed % 20
  let win := (tierWin win_decider).1
  let win_amount := (tierWin win_decider).2
  if signerLamports < BET_AMOUNT then .error .insufficientFunds
  else match cadd64 vaultLamports BET_AMOUNT with
    | none => .error .overflowAbort
    | some vl1 =>
      if 0 < win then
        let hr := holderRewardOf rnd win_amount
        let uw := wsub64 win_amount hr
        match cadd64 v.total_holder_rewards hr with
        | none => .error .overflowAbort
        | some pool2 =>
          .ok { vault := { spin := (v.spin + 1) % U16, seed := seed,
                           total_holder_rewards := pool2,
                           last_payout_time := v.last_payout_time },
                vaultLamports := wsub64 vl1 uw,
                signerLamports := signerLamports - BET_AMOUNT,
                uvLamports := wadd64 uvLamports uw,
                win := win, win_amount := win_amount }
      else
        .ok { vault := { spin := (v.spin + 1) % U16, seed := seed,
                         total_holder_rewards := v.total_holder_rewards,
                         last_payout_time := v.last_payout_time },
              vaultLamports := vl1,
              signerLamports := signerLamports - BET_AMOUNT,
              uvLamports := uvLamports,
              win := win, win_amount := win_amount }

/-- `claim_winnings` (source lines 163-172).  Returns the (unchanged)
user-vault record, the user-vault lamports and the signer lamports.  Both
arithmetic steps are checked and `.unwrap()`ed. -/
def claim_winnings (uv : UserVault) (uvLamports signerLamports : ℕ) :
    Except TxError (UserVault × ℕ × ℕ) :=
  match csub64 uvLamports RENT with
  | none => .error .overflowAbort
  | some claimable =>
    match cadd64 signerLamports claimable with
    | none => .error .overflowAbort
    | some s2 => .ok (uv, RENT, s2)

/-! ### Traces of operations against the shared treasury/registry -/

/-- The shared on-chain state a trace acts on: the singleton treasury
vault with its lamports, and the singleton holder registry.  Per-call
signer/user-vault balances are environment inputs of each operation. -/
structure World where
  vault : Vault
  vaultLamports : ℕ
  registry : HolderRegistry
deriving DecidableEq

inductive Op
  | spin (signerLamports uvLamports : ℕ)
  | distribute (now : ℤ) (signer : ℕ) (uvLamports : ℕ)
  | register (now : ℤ) (signer : ℕ) (signerLamports : ℕ)
  | claim (uvLamports signerLamports : ℕ)
deriving DecidableEq

/-- One transaction: on any error the whole instruction reverts, leaving
the shared state unchanged. -/
def applyOp (rnd : ℚ → ℚ) (w : World) : Op → World
  | .spin sL uL =>
    match spin rnd w.vault w.vaultLamports sL uL with
    | .ok r => { vault := r.vault, vaultLamports := r.vaultLamports,
                 registry := w.registry }
    | .error _ => w
  | .distribute now s uL =>
    match distribute_holder_rewards now w.vault w.vaultLamports w.registry uL s with
    | .ok r => { vault := r.1, vaultLamports := r.2.1, registry := w.registry }
    | .error _ => w
  | .register now s sL =>
    match register_as_holder now w.registry s sL with
    | .ok reg2 => { w with registry := reg2 }
    | .error _ => w
  | .claim _ _ => w

def runOps (rnd : ℚ → ℚ) (w : World) (ops : List Op) : World :=
  ops.foldl (applyOp rnd) w

/-- The holder-reward a spin from vault `v` contributes when it wins
(mirrors the win branch of `spin`). -/
def spinReward (rnd : ℚ → ℚ) (v : Vault) : ℕ :=
  if 0 < (tierWin (xorshiftStar v.seed % 20)).1 then
    holderRewardOf rnd (tierWin (xorshiftStar v.seed % 20)).2
  else 0

/-- The pool contribution of one operation in state `w`: the holder
reward of a successful winning spin, `0` otherwise. -/
def winContrib (rnd : ℚ → ℚ) (w : World) : Op → ℕ
  | .spin sL uL =>
    match spin rnd w.vault w.vaultLamports sL uL with
    | .ok _ => spinReward rnd w.vault
    | .error _ => 0
  | _ => 0

/-- The share paid out by one operation in state `w`: the per-holder
share of a successful distribution, `0` otherwise. -/
def sharePaid (w : World) : Op → ℕ
  | .distribute now s uL =>
    match distribute_holder_rewards now w.vault w.vaultLamports w.registry uL s with
    | .ok _ => w.vault.total_holder_rewards / w.registry.holders.length
    | .error _ => 0
  | _ => 0

def totalWins (rnd : ℚ → ℚ) (w : World) : List Op → ℕ
  | [] => 0
  | op :: ops => winContrib rnd w op + totalWins rnd (applyOp rnd w op) ops

def totalShares (rnd : ℚ → ℚ) (w : World) : List Op → ℕ
  | [] => 0
  | op :: ops => sharePaid w op + totalShares rnd (applyOp rnd w op) ops

/-- All spins of a run of consecutive `spin` calls succeed. -/
def allSpinsOk (rnd : ℚ → ℚ) (w : World) : List (ℕ × ℕ) → Prop
  | [] => True
  | e :: es =>
    (∃ r, spin rnd w.vault w.vaultLamports e.1 e.2 = .ok r) ∧
      allSpinsOk rnd (applyOp rnd w (.spin e.1 e.2)) es

def spinRun (rnd : ℚ → ℚ) (w : World) (envs : List (ℕ × ℕ)) : World :=
  runOps rnd w (envs.map fun e => Op.spin e.1 e.2)

/-! ### Basic arithmetic lemmas -/

lemma shiftRight_self_le (x n : ℕ) : x >>> n ≤ x := by
  rw [Nat.shiftRight_eq_div_pow]
  exact Nat.div_le_self x (2 ^ n)

lemma xor_lt_U64 {x y : ℕ} (hx : x < U64) (hy : y < U64) : x ^^^ y < U64 := by
  unfold U64 at *
  exact Nat.xor_lt_two_pow hx hy

lemma xor_mod_U64 (x y : ℕ) : (x ^^^ y) % U64 = x % U64 ^^^ y % U64 := by
  unfold U64
  apply Nat.eq_of_testBit_eq
  intro i
  simp only [Nat.testBit_mod_two_pow, Nat.testBit_xor]
  by_cases h : i < 64 <;> simp [h]

lemma xorshiftStar_lt (s : ℕ) : xorshiftStar s < U64 := by
  unfold xorshiftStar
  exact Nat.mod_lt _ (by unfold U64; positivity)

/-- The claim's formulation of the mixing step: every assignment taken
modulo `2^64`. -/
def specMix (s : ℕ) : ℕ :=
  let a := (s ^^^ s >>> 12) % U64
  let b := (a ^^^ a <<< 25) % U64
  let c := (b ^^^ b >>> 27) % U64
  c * 0x2545F4914F6CDD1D % U64

lemma specMix_eq {s : ℕ} (hs : s < U64) : specMix s = xorshiftStar s := by
  have h12 : s >>> 12 < U64 := lt_of_le_of_lt (shiftRight_self_le s 12) hs
  have ha : s ^^^ s >>> 12 < U64 := xor_lt_U64 hs h12
  have hb : s ^^^ s >>> 12 ^^^ (s ^^^ s >>> 12) <<< 25 % U64 < U64 :=
    xor_lt_U64 ha (Nat.mod_lt _ (by unfold U64; positivity))
  have hc : (s ^^^ s >>> 12 ^^^ (s ^^^ s >>> 12) <<< 25 % U64) ^^^
      (s ^^^ s >>> 12 ^^^ (s ^^^ s >>> 12) <<< 25 % U64) >>> 27 < U64 :=
    xor_lt_U64 hb (lt_of_le_of_lt (shiftRight_self_le _ 27) hb)
  unfold specMix xorshiftStar
  dsimp only
  rw [Nat.mod_eq_of_lt ha, xor_mod_U64 (s ^^^ s >>> 12) ((s ^^^ s >>> 12) <<< 25),
    Nat.mod_eq_of_lt ha, Nat.mod_eq_of_lt hc]

/-- The claim's tier table, phrased by ranges of `winDecider`. -/
def specTier (d : ℕ) : ℕ × ℕ :=
  if d ≤ 8 then (0, 0)
  else if d ≤ 14 then (1, BET_AMOUNT / 2)
  else if d ≤ 17 then (2, BET_AMOUNT)
  else (3, 2 * BET_AMOUNT)

lemma tierWin_eq_specTier (d : ℕ) : tierWin d = specTier d := by
  unfold tierWin specTier
  rcases Nat.lt_or_ge d 9 with h | h
  · rw [if_neg (by omega), if_neg (by omega), if_neg (by omega), if_pos (by omega)]
  rcases Nat.lt_or_ge d 15 with h2 | h2
  · rw [if_neg (by omega), if_neg (by omega), if_pos (by omega), if_neg (by omega),
      if_pos (by omega)]
  rcases Nat.lt_or_ge d 18 with h3 | h3
  · rw [if_neg (by omega), if_pos (by omega), if_neg (by omega), if_neg (by omega),
      if_pos (by omega)]
  · rw [if_pos (by omega), if_neg (by omega), if_neg (by omega), if_neg (by omega)]
    norm_num [BET_AMOUNT]

/-! ### Extraction lemmas for `spin` -/

lemma cadd64_some {a b c : ℕ} (h : cadd64 a b = some c) : c = a + b ∧ a + b < U64 := by
  unfold cadd64 at h
  split at h
  · exact ⟨(Option.some.inj h).symm, by assumption⟩
  · exact absurd h (by simp)

lemma csub64_some {a b c : ℕ} (h : csub64 a b = some c) : c = a - b ∧ b ≤ a := by
  unfold csub64 at h
  split at h
  · exact ⟨(Option.some.inj h).symm, by assumption⟩
  · exact absurd h (by simp)

lemma spin_ok_fields {rnd : ℚ → ℚ} {v : Vault} {vl sl ul : ℕ} {r : SpinResult}
    (h : spin rnd v vl sl ul = .ok r) :
    r.vault.seed = xorshiftStar v.seed ∧
    r.vault.spin = (v.spin + 1) % U16 ∧
    r.vault.last_payout_time = v.last_payout_time ∧
    r.vault.total_holder_rewards = v.total_holder_rewards + spinReward rnd v ∧
    r.win = (tierWin (xorshiftStar v.seed % 20)).1 ∧
    r.win_amount = (tierWin (xorshiftStar v.seed % 20)).2 := by
  simp only [spin] at h
  split at h
  · exact absurd h (by simp)
  split at h
  · exact absurd h (by simp)
  next vl1 heq =>
    by_cases hw : 0 < (tierWin (xorshiftStar v.seed % 20)).1
    · rw [if_pos hw] at h
      split at h
      · exact absurd h (by simp)
      next pool2 heq2 =>
        cases h
        have hp := (cadd64_some heq2).1
        refine ⟨rfl, rfl, rfl, ?_, rfl, rfl⟩
        show pool2 = v.total_holder_rewards + spinReward rnd v
        rw [hp]
        unfold spinReward
        rw [if_pos hw]
    · rw [if_neg hw] at h
      cases h
      refine ⟨rfl, rfl, rfl, ?_, rfl, rfl⟩
      show v.total_holder_rewards = v.total_holder_rewards + spinReward rnd v
      unfold spinReward
      rw [if_neg hw]
      omega

lemma spin_ok_win_lamports {rnd : ℚ → ℚ} {v : Vault} {vl sl ul : ℕ} {r : SpinResult}
    (h : spin rnd v vl sl ul = .ok r)
    (hw : 0 < (tierWin (xorshiftStar v.seed % 20)).1) :
    r.vaultLamports =
      wsub64 (vl + BET_AMOUNT)
        (wsub64 r.win_amount (holderRewardOf rnd r.win_amount)) ∧
    r.uvLamports = wadd64 ul (wsub64 r.win_amount (holderRewardOf rnd r.win_amount)) ∧
    r.signerLamports = sl - BET_AMOUNT ∧
    r.vault.total_holder_rewards =
      v.total_holder_rewards + holderRewardOf rnd r.win_amount := by
  simp only [spin] at h
  split at h
  · exact absurd h (by simp)
  split at h
  · exact absurd h (by simp)
  next vl1 heq =>
    have hvl1 := (cadd64_some heq).1
    split at h
    · exact absurd h (by simp)
    next pool2 heq2 =>
      have hp := (cadd64_some heq2).1
      cases h
      exact ⟨by rw [hvl1], rfl, rfl, by rw [hp]⟩

lemma spin_ok_lose {rnd : ℚ → ℚ} {v : Vault} {vl sl ul : ℕ} {r : SpinResult}
    (h : spin rnd v vl sl ul = .ok r)
    (hw : ¬ 0 < (tierWin (xorshiftStar v.seed % 20)).1) :
    r.vaultLamports = vl + BET_AMOUNT ∧ r.uvLamports = ul ∧
    r.signerLamports = sl - BET_AMOUNT := by
  simp only [spin] at h
  split at h
  · exact absurd h (by simp)
  split at h
  · exact absurd h (by simp)
  next vl1 heq =>
    have hvl1 := (cadd64_some heq).1
    cases h
    exact ⟨hvl1, rfl, rfl⟩

lemma spinRun_cons (rnd : ℚ → ℚ) (w : World) (e : ℕ × ℕ) (es : List (ℕ × ℕ)) :
    spinRun rnd w (e :: es) = spinRun rnd (applyOp rnd w (.spin e.1 e.2)) es := rfl

lemma spinRun_seed (rnd : ℚ → ℚ) :
    ∀ (envs : List (ℕ × ℕ)) (w : World), allSpinsOk rnd w envs →
      (spinRun rnd w envs).vault.seed = xorshiftStar^[envs.length] w.vault.seed := by
  intro envs
  induction envs with
  | nil => intro w _; rfl
  | cons e es ih =>
    intro w h
    obtain ⟨⟨r, hr⟩, hrest⟩ := h
    have hstep : (applyOp rnd w (.spin e.1 e.2)).vault.seed = xorshiftStar w.vault.seed := by
      simp only [applyOp, hr]
      exact (spin_ok_fields hr).1
    rw [spinRun_cons, ih _ hrest, hstep, List.length_cons,
      Function.iterate_succ_apply]

/-! ### Extraction lemmas for `distribute_holder_rewards` -/

lemma distribute_ok_fields {now : ℤ} {v : Vault} {vl : ℕ} {reg : HolderRegistry}
    {uvl s : ℕ} {out : Vault × ℕ × ℕ}
    (h : distribute_holder_rewards now v vl reg uvl s = .ok out) :
    out.1.total_holder_rewards
      = v.total_holder_rewards - v.total_holder_rewards / reg.holders.length ∧
    v.total_holder_rewards / reg.holders.length ≤ v.total_holder_rewards ∧
    out.2.1 = wsub64 vl (v.total_holder_rewards / reg.holders.length) ∧
    out.2.2 = wadd64 uvl (v.total_holder_rewards / reg.holders.length) ∧
    out.1.spin = v.spin ∧ out.1.seed = v.seed ∧
    out.1.last_payout_time =
      (if v.total_holder_rewards - v.total_holder_rewards / reg.holders.length = 0
       then now else v.last_payout_time) := by
  unfold distribute_holder_rewards at h
  split at h
  · exact absurd h (by simp)
  split at h
  · exact absurd h (by simp)
  split at h
  · exact absurd h (by simp)
  split at h
  · exact absurd h (by simp)
  dsimp only at h
  split at h
  · exact absurd h (by simp)
  next pool2 heq =>
    obtain ⟨hp, hle⟩ := csub64_some heq
    cases h
    subst hp
    exact ⟨rfl, hle, rfl, rfl, rfl, rfl, rfl⟩

lemma distribute_ok_conds {now : ℤ} {v : Vault} {vl : ℕ} {reg : HolderRegistry}
    {uvl s : ℕ} {out : Vault × ℕ × ℕ}
    (h : distribute_holder_rewards now v vl reg uvl s = .ok out) :
    i64add v.last_payout_time PAYOUT_INTERVAL ≤ now ∧ 0 < v.total_holder_rewards ∧
      0 < reg.holders.length ∧ s ∈ reg.holders := by
  unfold distribute_holder_rewards at h
  split at h
  · exact absurd h (by simp)
  next h1 =>
  split at h
  · exact absurd h (by simp)
  next h2 =>
  split at h
  · exact absurd h (by simp)
  next h3 =>
  split at h
  · exact absurd h (by simp)
  next h4 =>
  exact ⟨not_not.mp h1, not_not.mp h2, not_not.mp h3, not_not.mp h4⟩

lemma distribute_ok_of_conds {now : ℤ} {v : Vault} (vl : ℕ) {reg : HolderRegistry}
    (uvl : ℕ) {s : ℕ}
    (h1 : i64add v.last_payout_time PAYOUT_INTERVAL ≤ now)
    (h2 : 0 < v.total_holder_rewards) (h3 : 0 < reg.holders.length)
    (h4 : s ∈ reg.holders) :
    distribute_holder_rewards now v vl reg uvl s =
      .ok ({ spin := v.spin, seed := v.seed,
             total_holder_rewards :=
               v.total_holder_rewards - v.total_holder_rewards / reg.holders.length,
             last_payout_time :=
               if v.total_holder_rewards - v.total_holder_rewards / reg.holders.length = 0
               then now else v.last_payout_time },
           wsub64 vl (v.total_holder_rewards / reg.holders.length),
           wadd64 uvl (v.total_holder_rewards / reg.holders.length)) := by
  unfold distribute_holder_rewards
  rw [if_neg (not_not_intro h1), if_neg (not_not_intro h2), if_neg (not_not_intro h3),
    if_neg (not_not_intro h4)]
  have hsub : csub64 v.total_holder_rewards
      (v.total_holder_rewards / reg.holders.length)
      = some (v.total_holder_rewards - v.total_holder_rewards / reg.holders.length) := by
    unfold csub64
    rw [if_pos (Nat.div_le_self _ _)]
  simp only [hsub]

/-! ### The pool accounting invariant (C2) -/

lemma pool_step (rnd : ℚ → ℚ) (w : World) (op : Op) :
    ((applyOp rnd w op).vault.total_holder_rewards
        = w.vault.total_holder_rewards + winContrib rnd w op ∧ sharePaid w op = 0)
    ∨ ((applyOp rnd w op).vault.total_holder_rewards + sharePaid w op
        = w.vault.total_holder_rewards ∧
       sharePaid w op ≤ w.vault.total_holder_rewards ∧ winContrib rnd w op = 0) := by
  cases op with
  | spin sL uL =>
    left
    cases hres : spin rnd w.vault w.vaultLamports sL uL with
    | ok r =>
      simp only [applyOp, winContrib, sharePaid, hres]
      exact ⟨(spin_ok_fields hres).2.2.2.1, trivial⟩
    | error e => simp [applyOp, winContrib, sharePaid, hres]
  | distribute now s uL =>
    cases hres : distribute_holder_rewards now w.vault w.vaultLamports w.registry uL s with
    | ok out =>
      right
      simp only [applyOp, winContrib, sharePaid, hres]
      obtain ⟨h1, h2, _⟩ := distribute_ok_fields hres
      refine ⟨?_, h2, trivial⟩
      rw [h1]
      omega
    | error e => left; simp [applyOp, winContrib, sharePaid, hres]
  | register now s sL =>
    left
    cases hres : register_as_holder now w.registry s sL with
    | ok reg2 => simp [applyOp, winContrib, sharePaid, hres]
    | error e => simp [applyOp, winContrib, sharePaid, hres]
  | claim uL sL => left; simp [applyOp, winContrib, sharePaid]

lemma pool_trace (rnd : ℚ → ℚ) :
    ∀ (ops : List Op) (w : World),
      (runOps rnd w ops).vault.total_holder_rewards + totalShares rnd w ops
        = w.vault.total_holder_rewards + totalWins rnd w ops := by
  intro ops
  induction ops with
  | nil => intro w; rfl
  | cons op ops ih =>
    intro w
    have hstep := pool_step rnd w op
    have hrun : runOps rnd w (op :: ops) = runOps rnd (applyOp rnd w op) ops := rfl
    have hsh : totalShares rnd w (op :: ops)
        = sharePaid w op + totalShares rnd (applyOp rnd w op) ops := rfl
    have hwn : totalWins rnd w (op :: ops)
        = winContrib rnd w op + totalWins rnd (applyOp rnd w op) ops := rfl
    have hih := ih (applyOp rnd w op)
    rw [hrun, hsh, hwn]
    rcases hstep with ⟨h1, h2⟩ | ⟨h1, h2, h3⟩ <;> omega

/-- Claim C2: over any sequence of operations from the initialised state,
the treasury's reward pool equals the sum of the holder-reward
contributions of all successful winning spins minus the sum of all shares
paid out by successful distributions (so, being a difference of those
sums in `ℕ`, it never goes negative); and per step, the pool either grows
by exactly the win contribution (spins; zero elsewhere) or shrinks by
exactly one per-holder share that never exceeds the current pool
(distributions). -/
theorem C2_pool_invariant :
    (∀ rnd w op,
      ((applyOp rnd w op).vault.total_holder_rewards
          = w.vault.total_holder_rewards + winContrib rnd w op ∧ sharePaid w op = 0)
      ∨ ((applyOp rnd w op).vault.total_holder_rewards + sharePaid w op
          = w.vault.total_holder_rewards ∧
         sharePaid w op ≤ w.vault.total_holder_rewards ∧ winContrib rnd w op = 0)) ∧
    (∀ rnd t tr vl ops,
      (runOps rnd ⟨init t, vl, init_holder_registry tr⟩ ops).vault.total_holder_rewards
          + totalShares rnd ⟨init t, vl, init_holder_registry tr⟩ ops
        = totalWins rnd ⟨init t, vl, init_holder_registry tr⟩ ops) := by
  refine ⟨pool_step, fun rnd t tr vl ops => ?_⟩
  have := pool_trace rnd ops ⟨init t, vl, init_holder_registry tr⟩
  simpa [init] using this

/-- Claim C1: each `spin` outcome is a pure function of the treasury's
prior state: the seed advances by the xorshift64* mix (each step modulo
`2^64`), `winDecider` is the new seed modulo 20, and the tier is decided
by the ranges 0-8 (no win), 9-14 (small, `BET_AMOUNT/2`), 15-17 (big,
`BET_AMOUNT`), 18-19 (mega, `2*BET_AMOUNT`); consequently the sequence of
deciders over any run of successful spins is the bit-exact iterate of the
mix on the initial seed, independent of the per-call environment. -/
theorem C1_spin_outcome :
    (∀ s : ℕ, s < U64 → specMix s = xorshiftStar s) ∧
    (∀ d : ℕ, tierWin d = specTier d) ∧
    (∀ rnd v vl sl ul r, spin rnd v vl sl ul = .ok r →
      r.vault.seed = xorshiftStar v.seed ∧
      r.win_amount = (specTier (xorshiftStar v.seed % 20)).2 ∧
      r.win = (specTier (xorshiftStar v.seed % 20)).1 ∧
      xorshiftStar v.seed % 20 < 20) ∧
    (∀ rnd w envs, allSpinsOk rnd w envs →
      (spinRun rnd w envs).vault.seed = xorshiftStar^[envs.length] w.vault.seed) := by
  refine ⟨fun s hs => specMix_eq hs, tierWin_eq_specTier, ?_, fun rnd w envs h => spinRun_seed rnd envs w h⟩
  intro rnd v vl sl ul r h
  have hf := spin_ok_fields h
  exact ⟨hf.1, by rw [hf.2.2.2.2.2, tierWin_eq_specTier],
    by rw [hf.2.2.2.2.1, tierWin_eq_specTier],
    Nat.mod_lt _ (by norm_num)⟩

/-- Witness for C1 at concrete inputs: the initial seed `RENT`, the
decider value 9, and a one-spin run from the freshly initialised state. -/
theorem C1_spin_outcome_witness :
    specMix 967440 = xorshiftStar 967440 ∧
    tierWin 9 = specTier 9 ∧
    (spinRun (fun q => q) ⟨init 0, 0, init_holder_registry 0⟩
        [(BET_AMOUNT, 0)]).vault.seed = xorshiftStar^[1] RENT := by
  refine ⟨C1_spin_outcome.1 967440 (by norm_num [U64]), C1_spin_outcome.2.1 9, ?_⟩
  exact C1_spin_outcome.2.2.2 (fun q => q) ⟨init 0, 0, init_holder_registry 0⟩
    [(BET_AMOUNT, 0)] ⟨⟨_, rfl⟩, trivial⟩

/-! ### Claim C3: effect of a successful distribution -/

lemma wsub64_eq {a b : ℕ} (hb : b ≤ a) (ha : a < U64) : wsub64 a b = a - b := by
  unfold wsub64
  have hbU : b < U64 := lt_of_le_of_lt hb ha
  rw [Nat.mod_eq_of_lt hbU]
  have hsplit : a + (U64 - b) = a - b + U64 := by omega
  rw [hsplit, Nat.add_mod_right, Nat.mod_eq_of_lt (by omega)]

lemma wadd64_eq {a b : ℕ} (h : a + b < U64) : wadd64 a b = a + b := by
  unfold wadd64
  exact Nat.mod_eq_of_lt h

/-- The concrete treasury of the spec's worked example: reward pool of
1000 with three registered holders. -/
def exampleVault : Vault :=
  { spin := 0, seed := RENT, total_holder_rewards := 1000, last_payout_time := 0 }

def exampleWorld : World :=
  { vault := exampleVault, vaultLamports := 10000,
    registry := { holders := [1, 2, 3], last_updated := 0 } }

/-- Claim C3 (amended): a successful `distribute_holder_rewards` call pays
`share = floor(pool / holderCount)` computed from the pool as it stands at
that call, moves `share` from the treasury to the caller's user vault,
decreases the pool by exactly `share`, and resets `lastPayoutTime` to the
current time exactly when the pool lands on zero.  Because each call
recomputes the share from the current pool, the worked example pool = 1000
with 3 holders pays 333, then 222, then 148, leaving pools 667, 445, 297 —
not `1000 - 333·k`. -/
theorem C3_distribute_effect :
    (∀ now v vl reg uvl c out,
      distribute_holder_rewards now v vl reg uvl c = .ok out →
      out.1.total_holder_rewards
          = v.total_holder_rewards - v.total_holder_rewards / reg.holders.length ∧
      v.total_holder_rewards / reg.holders.length ≤ v.total_holder_rewards ∧
      out.2.1 = wsub64 vl (v.total_holder_rewards / reg.holders.length) ∧
      out.2.2 = wadd64 uvl (v.total_holder_rewards / reg.holders.length) ∧
      (v.total_holder_rewards / reg.holders.length ≤ vl → vl < U64 →
        out.2.1 = vl - v.total_holder_rewards / reg.holders.length) ∧
      (uvl + v.total_holder_rewards / reg.holders.length < U64 →
        out.2.2 = uvl + v.total_holder_rewards / reg.holders.length) ∧
      out.1.last_payout_time =
        (if out.1.total_holder_rewards = 0 then now else v.last_payout_time)) ∧
    ((runOps (fun q => q) exampleWorld
        [.distribute 86400 1 0]).vault.total_holder_rewards = 667 ∧
     (runOps (fun q => q) exampleWorld
        [.distribute 86400 1 0, .distribute 86400 2 0]).vault.total_holder_rewards = 445 ∧
     (runOps (fun q => q) exampleWorld
        [.distribute 86400 1 0, .distribute 86400 2 0,
         .distribute 86400 3 0]).vault.total_holder_rewards = 297) := by
  refine ⟨?_, by decide, by decide, by decide⟩
  intro now v vl reg uvl c out h
  obtain ⟨h1, h2, h3, h4, h5, h6, h7⟩ := distribute_ok_fields h
  refine ⟨h1, h2, h3, h4, fun hle hlt => ?_, fun hlt => ?_, by rw [h7, h1]⟩
  · rw [h3, wsub64_eq hle hlt]
  · rw [h4, wadd64_eq hlt]

/-- Counterexample to claim C3 as stated: after two distinct holders
claim from pool 1000 with 3 holders in one cycle, the pool is 445, not
`1000 - 333·2 = 334` — the second call pays `floor(667/3) = 222`. -/
theorem C3_counterexample :
    (runOps (fun q => q) exampleWorld
        [.distribute 86400 1 0, .distribute 86400 2 0]).vault.total_holder_rewards = 445 ∧
      (1000 - 333 * 2 : ℕ) ≠ 445 := by
  exact ⟨by decide, by decide⟩

/-- Witness for C3 at a concrete successful call: the first distribution
from the example state pays share `333 = 1000 / 3` and leaves pool 667. -/
theorem C3_distribute_effect_witness :
    ((({ spin := 0, seed := RENT, total_holder_rewards := 667,
         last_payout_time := 0 } : Vault), (9667 : ℕ), (333 : ℕ)) :
        Vault × ℕ × ℕ).1.total_holder_rewards
      = exampleVault.total_holder_rewards
          - exampleVault.total_holder_rewards /
              (HolderRegistry.mk [1, 2, 3] 0).holders.length := by
  exact (C3_distribute_effect.1 86400 exampleVault 10000 ⟨[1, 2, 3], 0⟩ 0 1
    ({ spin := 0, seed := RENT, total_holder_rewards := 667, last_payout_time := 0 },
      9667, 333) rfl).1

/-! ### Claim C4: the float-then-truncate holder reward -/

lemma repF64_natCast {n : ℕ} (hn : n ≤ 2 ^ 53 - 1) : repF64 (n : ℚ) := by
  refine ⟨(n : ℤ), 0, by simpa using hn, ?_⟩
  push_cast
  ring

lemma f64toU64_natCast {t : ℕ} (ht : t ≤ U64 - 1) : f64toU64 (t : ℚ) = t := by
  unfold f64toU64
  rw [if_neg (not_lt.mpr (by positivity)), Int.floor_natCast, Int.toNat_natCast]
  exact min_eq_left ht

/-- On a win amount divisible by ten and small enough that every
intermediate lies on the binary64 grid, the floating-point pipeline of
`spin` computes exactly a tenth of the amount. -/
lemma holderRewardOf_exact {rnd : ℚ → ℚ} (h : FaithfulRound rnd) {w t : ℕ}
    (ht : w = 10 * t) (hbound : 10 * w ≤ 2 ^ 53 - 1) :
    holderRewardOf rnd w = t := by
  unfold holderRewardOf
  have h1 : rnd (w : ℚ) = (w : ℚ) := h _ (repF64_natCast (by omega))
  have e2 : (w : ℚ) * (HOLDER_REWARD_PERCENTAGE : ℚ) = ((10 * w : ℕ) : ℚ) := by
    unfold HOLDER_REWARD_PERCENTAGE
    push_cast
    ring
  have h2 : rnd ((10 * w : ℕ) : ℚ) = ((10 * w : ℕ) : ℚ) :=
    h _ (repF64_natCast hbound)
  have e3 : ((10 * w : ℕ) : ℚ) / 100 = (t : ℚ) := by
    subst ht
    push_cast
    ring_nf
  have h3 : rnd (t : ℚ) = (t : ℚ) := h _ (repF64_natCast (by omega))
  rw [h1, e2, h2, e3, h3, f64toU64_natCast (by unfold U64; omega)]

lemma tierWin_pos_amount {d : ℕ} (h : 0 < (tierWin d).1) :
    (tierWin d).2 = 50000000 ∨ (tierWin d).2 = 100000000 ∨
      (tierWin d).2 = 200000000 := by
  unfold tierWin at h ⊢
  split_ifs at h ⊢ <;> simp_all [BET_AMOUNT]

/-- The fully evaluated success equation of a winning `spin`. -/
lemma spin_win_eq {rnd : ℚ → ℚ} {v : Vault} {vl sl ul : ℕ}
    (hsl : ¬ sl < BET_AMOUNT) (hvl : vl + BET_AMOUNT < U64)
    (hw : 0 < (tierWin (xorshiftStar v.seed % 20)).1)
    (hpool : v.total_holder_rewards
        + holderRewardOf rnd (tierWin (xorshiftStar v.seed % 20)).2 < U64) :
    spin rnd v vl sl ul = .ok
      { vault := { spin := (v.spin + 1) % U16, seed := xorshiftStar v.seed,
                   total_holder_rewards := v.total_holder_rewards
                     + holderRewardOf rnd (tierWin (xorshiftStar v.seed % 20)).2,
                   last_payout_time := v.last_payout_time },
        vaultLamports := wsub64 (vl + BET_AMOUNT)
          (wsub64 (tierWin (xorshiftStar v.seed % 20)).2
            (holderRewardOf rnd (tierWin (xorshiftStar v.seed % 20)).2)),
        signerLamports := sl - BET_AMOUNT,
        uvLamports := wadd64 ul
          (wsub64 (tierWin (xorshiftStar v.seed % 20)).2
            (holderRewardOf rnd (tierWin (xorshiftStar v.seed % 20)).2)),
        win := (tierWin (xorshiftStar v.seed % 20)).1,
        win_amount := (tierWin (xorshiftStar v.seed % 20)).2 } := by
  simp only [spin]
  rw [if_neg hsl]
  have h1 : cadd64 vl BET_AMOUNT = some (vl + BET_AMOUNT) := by
    unfold cadd64
    rw [if_pos hvl]
  simp only [h1]
  rw [if_pos hw]
  have h2 : cadd64 v.total_holder_rewards
      (holderRewardOf rnd (tierWin (xorshiftStar v.seed % 20)).2)
      = some (v.total_holder_rewards
          + holderRewardOf rnd (tierWin (xorshiftStar v.seed % 20)).2) := by
    unfold cadd64
    rw [if_pos hpool]
  simp only [h2]

/-- Claim C4: on every winning spin the holder reward is the win amount
cast to binary64, multiplied by 10, divided by 100, truncated to `u64`;
for each of the three actual win amounts this pipeline returns exactly a
tenth of the amount, so `userWinnings = 9·(payout/10)` is what moves from
the treasury to the player's vault while the pool grows by `payout/10`.
`rnd` is any binary64 rounding (`FaithfulRound` holds for every IEEE-754
mode). -/
theorem C4_holder_reward_float :
    ∀ rnd, FaithfulRound rnd →
      (holderRewardOf rnd 200000000 = 20000000 ∧
       holderRewardOf rnd 100000000 = 10000000 ∧
       holderRewardOf rnd 50000000 = 5000000) ∧
      (∀ v vl sl ul r, spin rnd v vl sl ul = .ok r → 0 < r.win →
        holderRewardOf rnd r.win_amount = r.win_amount / 10 ∧
        r.win_amount - r.win_amount / 10 = 9 * (r.win_amount / 10) ∧
        r.vault.total_holder_rewards
          = v.total_holder_rewards + r.win_amount / 10 ∧
        r.uvLamports = wadd64 ul (wsub64 r.win_amount (r.win_amount / 10)) ∧
        r.vaultLamports
          = wsub64 (vl + BET_AMOUNT) (wsub64 r.win_amount (r.win_amount / 10))) := by
  intro rnd hf
  constructor
  · exact ⟨holderRewardOf_exact hf rfl (by norm_num),
      holderRewardOf_exact hf rfl (by norm_num),
      holderRewardOf_exact hf rfl (by norm_num)⟩
  · intro v vl sl ul r h hwin
    have hfields := spin_ok_fields h
    have hw : 0 < (tierWin (xorshiftStar v.seed % 20)).1 := by
      rw [hfields.2.2.2.2.1] at hwin
      exact hwin
    have hlam := spin_ok_win_lamports h hw
    have hamounts := tierWin_pos_amount hw
    rw [← hfields.2.2.2.2.2] at hamounts
    have hhr : holderRewardOf rnd r.win_amount = r.win_amount / 10 := by
      rcases hamounts with ha | ha | ha <;> rw [ha] <;>
        [exact holderRewardOf_exact hf rfl (by norm_num);
         exact holderRewardOf_exact hf rfl (by norm_num);
         exact holderRewardOf_exact hf rfl (by norm_num)]
    refine ⟨hhr, ?_, ?_, ?_, ?_⟩
    · rcases hamounts with ha | ha | ha <;> rw [ha]
    · rw [hfields.2.2.2.1]
      unfold spinReward
      rw [if_pos hw, ← hfields.2.2.2.2.2, hhr]
    · rw [hlam.2.1, hhr]
    · rw [hlam.1, hhr]

/-- Witness for C4: the identity function is a faithful rounding, and at
seed 3 the spin is a big win whose reward-pool contribution is exactly
one tenth of `BET_AMOUNT`. -/
theorem C4_holder_reward_float_witness :
    holderRewardOf (fun q => q) 200000000 = 20000000 ∧
    holderRewardOf (fun q => q) 100000000 = 10000000 ∧
    holderRewardOf (fun q => q) 50000000 = 5000000 ∧
    (∃ r, spin (fun q => q) ⟨0, 3, 0, 0⟩ 0 BET_AMOUNT 0 = .ok r ∧
      r.vault.total_holder_rewards = 10000000) := by
  have hf : FaithfulRound (fun q => q) := fun q _ => rfl
  have h := C4_holder_reward_float (fun q => q) hf
  refine ⟨h.1.1, h.1.2.1, h.1.2.2, ?_⟩
  have hamt : (tierWin (xorshiftStar (3 : ℕ) % 20)).2 = 100000000 := by decide
  have hw : 0 < (tierWin (xorshiftStar (3 : ℕ) % 20)).1 := by decide
  have hpool : (0 : ℕ) + holderRewardOf (fun q => q)
      (tierWin (xorshiftStar (3 : ℕ) % 20)).2 < U64 := by
    rw [hamt, h.1.2.1]
    norm_num [U64]
  have hspin := @spin_win_eq (fun q => q) ⟨0, 3, 0, 0⟩ 0 BET_AMOUNT 0 (by norm_num)
    (by norm_num [U64, BET_AMOUNT]) hw hpool
  refine ⟨_, hspin, ?_⟩
  have hconc := (h.2 ⟨0, 3, 0, 0⟩ 0 BET_AMOUNT 0 _ hspin (by exact hw)).2.2.1
  rw [hconc]
  show 0 + (tierWin (xorshiftStar 3 % 20)).2 / 10 = 10000000
  rw [hamt]

/-! ### Claim C5: claim_winnings settlement -/

/-- Claim C5: on a user vault holding at least `RENT`, `claim_winnings`
sets the vault's lamports to exactly `RENT` and adds exactly
`claimable = held - RENT` to the signer's balance (the checked addition
cannot overflow for any balances below the conserved `u64` lamport
supply, which the hypothesis records); an immediate second call finds
`claimable = 0` and succeeds without underflow or abort. -/
theorem C5_claim_winnings :
    (∀ (uv : UserVault) uvL sL, RENT ≤ uvL → sL + (uvL - RENT) < U64 →
      claim_winnings uv uvL sL = .ok (uv, RENT, sL + (uvL - RENT))) ∧
    (∀ (uv : UserVault) sL, sL < U64 →
      claim_winnings uv RENT sL = .ok (uv, RENT, sL)) ∧
    (∀ (uv : UserVault) sL, sL + 500 < U64 →
      claim_winnings uv (RENT + 500) sL = .ok (uv, RENT, sL + 500)) := by
  have key : ∀ (uv : UserVault) uvL sL, RENT ≤ uvL → sL + (uvL - RENT) < U64 →
      claim_winnings uv uvL sL = .ok (uv, RENT, sL + (uvL - RENT)) := by
    intro uv uvL sL h1 h2
    have hc : csub64 uvL RENT = some (uvL - RENT) := by
      unfold csub64
      rw [if_pos h1]
    have ha : cadd64 sL (uvL - RENT) = some (sL + (uvL - RENT)) := by
      unfold cadd64
      rw [if_pos h2]
    generalize hgen : uvL - RENT = cl at hc ha ⊢
    generalize hgen2 : sL + cl = s2 at ha ⊢
    unfold claim_winnings
    split
    next heq =>
      rw [hc] at heq
      exact absurd heq (by simp)
    next cc heq =>
      rw [hc] at heq
      cases heq
      split
      next heq2 =>
        rw [ha] at heq2
        exact absurd heq2 (by simp)
      next ss heq2 =>
        rw [ha] at heq2
        cases heq2
        rfl
  refine ⟨key, fun uv sL h => ?_, fun uv sL h => ?_⟩
  · have := key uv RENT sL (le_refl _) (by simpa using h)
    simpa using this
  · have := key uv (RENT + 500) sL (by omega) (by simpa using h)
    simpa using this

/-- Witness for C5: a vault holding `RENT + 500` pays out exactly 500 and
is left holding exactly `RENT`. -/
theorem C5_claim_winnings_witness :
    claim_winnings ⟨0⟩ (RENT + 500) 0 = .ok (⟨0⟩, RENT, 500) := by
  have := C5_claim_winnings.2.2 ⟨0⟩ 0 (by norm_num [U64])
  simpa using this

/-! ### Claim C6: distribution preconditions and error codes -/

lemma i64add_small {a : ℤ} (h1 : -2 ^ 62 ≤ a) (h2 : a ≤ 2 ^ 62) :
    i64add a PAYOUT_INTERVAL = a + 86400 := by
  unfold i64add PAYOUT_INTERVAL
  omega

lemma distribute_err_time {now : ℤ} {v : Vault} {vl : ℕ} {reg : HolderRegistry}
    {uvl c : ℕ} (h : ¬ i64add v.last_payout_time PAYOUT_INTERVAL ≤ now) :
    distribute_holder_rewards now v vl reg uvl c = .error (.code .PayoutTooEarly) := by
  unfold distribute_holder_rewards
  rw [if_pos h]

lemma distribute_err_pool {now : ℤ} {v : Vault} {vl : ℕ} {reg : HolderRegistry}
    {uvl c : ℕ} (h1 : i64add v.last_payout_time PAYOUT_INTERVAL ≤ now)
    (h2 : v.total_holder_rewards = 0) :
    distribute_holder_rewards now v vl reg uvl c
      = .error (.code .NoRewardsToDistribute) := by
  unfold distribute_holder_rewards
  rw [if_neg (not_not_intro h1), if_pos (by omega)]

lemma distribute_err_holders {now : ℤ} {v : Vault} {vl : ℕ} {reg : HolderRegistry}
    {uvl c : ℕ} (h1 : i64add v.last_payout_time PAYOUT_INTERVAL ≤ now)
    (h2 : 0 < v.total_holder_rewards) (h3 : reg.holders = []) :
    distribute_holder_rewards now v vl reg uvl c
      = .error (.code .NoHoldersRegistered) := by
  unfold distribute_holder_rewards
  rw [if_neg (not_not_intro h1), if_neg (not_not_intro h2),
    if_pos (by rw [h3]; simp)]

lemma distribute_err_member {now : ℤ} {v : Vault} {vl : ℕ} {reg : HolderRegistry}
    {uvl c : ℕ} (h1 : i64add v.last_payout_time PAYOUT_INTERVAL ≤ now)
    (h2 : 0 < v.total_holder_rewards) (h3 : 0 < reg.holders.length)
    (h4 : c ∉ reg.holders) :
    distribute_holder_rewards now v vl reg uvl c
      = .error (.code .NotRegisteredHolder) := by
  unfold distribute_holder_rewards
  rw [if_neg (not_not_intro h1), if_neg (not_not_intro h2),
    if_neg (not_not_intro h3), if_pos h4]

/-- Claim C6: `distribute_holder_rewards` succeeds exactly when all four
preconditions hold; each violated precondition (checked in source order)
yields its own distinct error — `PayoutTooEarly` when the 24h gate has
not passed, `NoRewardsToDistribute` when the pool is zero,
`NoHoldersRegistered` when the registry is empty, `NotRegisteredHolder`
when the caller is not a member — and every failing call leaves the
shared state unchanged.  The timestamp bounds record that real clock
values are far from `i64` overflow. -/
theorem C6_distribute_errors :
    ∀ now (v : Vault) vl (reg : HolderRegistry) uvl c,
      -2 ^ 62 ≤ v.last_payout_time → v.last_payout_time ≤ 2 ^ 62 →
      ((∃ out, distribute_holder_rewards now v vl reg uvl c = .ok out) ↔
        (v.last_payout_time + PAYOUT_INTERVAL ≤ now ∧ 0 < v.total_holder_rewards ∧
         reg.holders ≠ [] ∧ c ∈ reg.holders)) ∧
      (now < v.last_payout_time + PAYOUT_INTERVAL →
        distribute_holder_rewards now v vl reg uvl c
          = .error (.code .PayoutTooEarly)) ∧
      (v.last_payout_time + PAYOUT_INTERVAL ≤ now → v.total_holder_rewards = 0 →
        distribute_holder_rewards now v vl reg uvl c
          = .error (.code .NoRewardsToDistribute)) ∧
      (v.last_payout_time + PAYOUT_INTERVAL ≤ now → 0 < v.total_holder_rewards →
        reg.holders = [] →
        distribute_holder_rewards now v vl reg uvl c
          = .error (.code .NoHoldersRegistered)) ∧
      (v.last_payout_time + PAYOUT_INTERVAL ≤ now → 0 < v.total_holder_rewards →
        c ∉ reg.holders →
        distribute_holder_rewards now v vl reg uvl c
          = .error (.code .NoHoldersRegistered) ∨
        distribute_holder_rewards now v vl reg uvl c
          = .error (.code .NotRegisteredHolder)) ∧
      (∀ rnd e, distribute_holder_rewards now v vl reg uvl c = .error e →
        applyOp rnd ⟨v, vl, reg⟩ (.distribute now c uvl) = ⟨v, vl, reg⟩) := by
  intro now v vl reg uvl c hb1 hb2
  have htime : i64add v.last_payout_time PAYOUT_INTERVAL
      = v.last_payout_time + 86400 := i64add_small hb1 hb2
  have hPI : PAYOUT_INTERVAL = 86400 := rfl
  refine ⟨?_, ?_, ?_, ?_, ?_, ?_⟩
  · constructor
    · rintro ⟨out, hout⟩
      obtain ⟨h1, h2, h3, h4⟩ := distribute_ok_conds hout
      rw [htime] at h1
      refine ⟨by rw [hPI]; exact h1, h2, ?_, h4⟩
      intro hnil
      rw [hnil] at h4
      simp at h4
    · rintro ⟨h1, h2, h3, h4⟩
      rw [hPI] at h1
      rw [← htime] at h1
      exact ⟨_, distribute_ok_of_conds vl uvl h1 h2 (List.length_pos_of_mem h4) h4⟩
  · intro h
    apply distribute_err_time
    rw [htime, hPI] at *
    omega
  · intro h1 h2
    exact distribute_err_pool (by rw [htime, hPI] at *; omega) h2
  · intro h1 h2 h3
    exact distribute_err_holders (by rw [htime, hPI] at *; omega) h2 h3
  · intro h1 h2 h4
    rcases Nat.eq_zero_or_pos reg.holders.length with hlen | hlen
    · exact Or.inl (distribute_err_holders (by rw [htime, hPI] at *; omega) h2
        (List.length_eq_zero.mp hlen))
    · exact Or.inr (distribute_err_member (by rw [htime, hPI] at *; omega) h2 hlen h4)
  · intro rnd e he
    simp [applyOp, he]

/-- Witness for C6: with `lastPayoutTime = 0` a call at time 0 is gated
and fails with `PayoutTooEarly`. -/
theorem C6_distribute_errors_witness :
    distribute_holder_rewards 0 ⟨0, RENT, 5, 0⟩ 0 ⟨[7], 0⟩ 0 7
      = .error (.code .PayoutTooEarly) := by
  have h := C6_distribute_errors 0 ⟨0, RENT, 5, 0⟩ 0 ⟨[7], 0⟩ 0 7
    (by norm_num) (by norm_num)
  exact h.2.1 (by norm_num [PAYOUT_INTERVAL])

/-! ### Claim C7: holder registration -/

/-- Claim C7 (amended): re-registering an already-registered holder whose
balance still meets `MIN_HOLDER_BALANCE` is a no-op success (registry and
`lastUpdated` unchanged), but the balance check runs on every call, so a
registered holder whose balance has dropped below the minimum gets
`InsufficientHolderBalance`; a new identity is admitted exactly when its
balance meets the minimum; `lastUpdated` changes only on an actual
insertion, and two insertions of the same identity leave exactly one
occurrence. -/
theorem C7_register_idempotent :
    (∀ now (reg : HolderRegistry) p L, MIN_HOLDER_BALANCE ≤ L → p ∈ reg.holders →
      register_as_holder now reg p L = .ok reg) ∧
    (∀ now (reg : HolderRegistry) p L, L < MIN_HOLDER_BALANCE →
      register_as_holder now reg p L = .error (.code .InsufficientHolderBalance)) ∧
    (∀ now (reg : HolderRegistry) p L, MIN_HOLDER_BALANCE ≤ L → p ∉ reg.holders →
      register_as_holder now reg p L
        = .ok { holders := reg.holders ++ [p], last_updated := now }) ∧
    (∀ now now2 (reg : HolderRegistry) p L L2 r1 r2,
      MIN_HOLDER_BALANCE ≤ L → MIN_HOLDER_BALANCE ≤ L2 → p ∉ reg.holders →
      register_as_holder now reg p L = .ok r1 →
      register_as_holder now2 r1 p L2 = .ok r2 →
      r2 = r1 ∧ r1.last_updated = now ∧ r2.holders.count p = 1) := by
  have part1 : ∀ now (reg : HolderRegistry) p L, MIN_HOLDER_BALANCE ≤ L →
      p ∈ reg.holders → register_as_holder now reg p L = .ok reg := by
    intro now reg p L hL hp
    unfold register_as_holder
    rw [if_neg (not_lt.mpr hL), if_pos hp]
  have part3 : ∀ now (reg : HolderRegistry) p L, MIN_HOLDER_BALANCE ≤ L →
      p ∉ reg.holders → register_as_holder now reg p L
        = .ok { holders := reg.holders ++ [p], last_updated := now } := by
    intro now reg p L hL hp
    unfold register_as_holder
    rw [if_neg (not_lt.mpr hL), if_neg hp]
  refine ⟨part1, ?_, part3, ?_⟩
  · intro now reg p L hL
    unfold register_as_holder
    rw [if_pos hL]
  · intro now now2 reg p L L2 r1 r2 hL hL2 hp h1 h2
    rw [part3 now reg p L hL hp] at h1
    have hr1 : r1 = { holders := reg.holders ++ [p], last_updated := now } :=
      (Except.ok.inj h1).symm
    subst hr1
    rw [part1 now2 _ p L2 hL2 (by simp)] at h2
    have hr2 : r2 = { holders := reg.holders ++ [p], last_updated := now } :=
      (Except.ok.inj h2).symm
    subst hr2
    refine ⟨rfl, rfl, ?_⟩
    rw [show (HolderRegistry.mk (reg.holders ++ [p]) now).holders
        = reg.holders ++ [p] from rfl,
      List.count_append, List.count_eq_zero_of_not_mem hp]
    simp

/-- Counterexample to claim C7 as stated: a holder already in the
registry whose balance has dropped below `MIN_HOLDER_BALANCE` gets an
error on re-registration, not a no-op. -/
theorem C7_counterexample :
    register_as_holder 0 ⟨[5], 0⟩ 5 (MIN_HOLDER_BALANCE - 1)
      = .error (.code .InsufficientHolderBalance) := rfl

/-- Witness for C7: registering a fresh identity twice with a sufficient
balance inserts it once, and the second call returns the registry
unchanged. -/
theorem C7_register_idempotent_witness :
    ∃ r1 r2, register_as_holder 0 ⟨[], 0⟩ 5 MIN_HOLDER_BALANCE = .ok r1 ∧
      register_as_holder 1 r1 5 MIN_HOLDER_BALANCE = .ok r2 ∧
      r2 = r1 ∧ r1.holders.count 5 = 1 := by
  have h := C7_register_idempotent
  have h1 := h.2.2.1 0 ⟨[], 0⟩ 5 MIN_HOLDER_BALANCE (le_refl _) (by simp)
  have h2 := h.1 1 ⟨[] ++ [5], 0⟩ 5 MIN_HOLDER_BALANCE (le_refl _) (by simp)
  have h4 := h.2.2.2 0 1 ⟨[], 0⟩ 5 MIN_HOLDER_BALANCE MIN_HOLDER_BALANCE _ _
    (le_refl _) (le_refl _) (by simp) h1 h2
  exact ⟨_, _, h1, h2, h4.1, h4.2.2⟩

/-! ### Claim C8: arithmetic policy -/

lemma spin_overflow_abort {rnd : ℚ → ℚ} {v : Vault} {vl sl ul : ℕ}
    (hsl : ¬ sl < BET_AMOUNT) (hvl : vl + BET_AMOUNT < U64)
    (hw : 0 < (tierWin (xorshiftStar v.seed % 20)).1)
    (hov : ¬ v.total_holder_rewards
        + holderRewardOf rnd (tierWin (xorshiftStar v.seed % 20)).2 < U64) :
    spin rnd v vl sl ul = .error .overflowAbort := by
  simp only [spin]
  rw [if_neg hsl]
  have h1 : cadd64 vl BET_AMOUNT = some (vl + BET_AMOUNT) := by
    unfold cadd64
    rw [if_pos hvl]
  simp only [h1]
  rw [if_pos hw]
  have h2 : cadd64 v.total_holder_rewards
      (holderRewardOf rnd (tierWin (xorshiftStar v.seed % 20)).2) = none := by
    unfold cadd64
    rw [if_neg hov]
  simp only [h2]

/-- Claim C8 (amended): the reward-pool updates use checked arithmetic —
a winning spin whose pool addition would overflow `u64` aborts with no
state change, and a distribution's pool subtraction is exact (the share
never exceeds the pool, so the checked subtraction cannot fail) — and
the `u16` spin counter wraps by design; but the raw lamport updates of
`spin` and `distribute_holder_rewards` are plain wrapping `u64`
arithmetic (`wsub64`/`wadd64`), not checked. -/
theorem C8_arithmetic_policy :
    (∀ rnd (v : Vault) vl sl ul, ¬ sl < BET_AMOUNT → vl + BET_AMOUNT < U64 →
      0 < (tierWin (xorshiftStar v.seed % 20)).1 →
      ¬ v.total_holder_rewards
          + holderRewardOf rnd (tierWin (xorshiftStar v.seed % 20)).2 < U64 →
      spin rnd v vl sl ul = .error .overflowAbort) ∧
    (∀ rnd v vl sl ul r, spin rnd v vl sl ul = .ok r →
      r.vault.spin = (v.spin + 1) % U16) ∧
    (∀ now v vl reg uvl c out,
      distribute_holder_rewards now v vl reg uvl c = .ok out →
      v.total_holder_rewards / reg.holders.length ≤ v.total_holder_rewards ∧
      out.1.total_holder_rewards + v.total_holder_rewards / reg.holders.length
        = v.total_holder_rewards ∧
      out.2.1 = wsub64 vl (v.total_holder_rewards / reg.holders.length) ∧
      out.2.2 = wadd64 uvl (v.total_holder_rewards / reg.holders.length)) := by
  refine ⟨fun rnd v vl sl ul h1 h2 h3 h4 => spin_overflow_abort h1 h2 h3 h4,
    fun rnd v vl sl ul r h => (spin_ok_fields h).2.1, ?_⟩
  intro now v vl reg uvl c out h
  obtain ⟨e1, e2, e3, e4, -⟩ := distribute_ok_fields h
  refine ⟨e2, ?_, e3, e4⟩
  rw [e1]
  omega

/-- Counterexample to claim C8 as stated: a distribution from a treasury
whose actual lamports (0) are below the share (1000) does not abort —
the plain `-=` wraps, leaving the treasury with `2^64 - 1000` lamports. -/
theorem C8_counterexample :
    distribute_holder_rewards 86400 ⟨0, RENT, 1000, 0⟩ 0 ⟨[5], 0⟩ 0 5
      = .ok (⟨0, RENT, 0, 86400⟩, U64 - 1000, 1000) := rfl

/-- Witness for C8: with the pool at `2^64 - 1` a winning spin aborts on
the checked pool addition. -/
theorem C8_arithmetic_policy_witness :
    spin (fun q => q) ⟨0, 3, U64 - 1, 0⟩ 0 BET_AMOUNT 0 = .error .overflowAbort := by
  have hw : 0 < (tierWin (xorshiftStar (3 : ℕ) % 20)).1 := by decide
  have hhr : holderRewardOf (fun q => q) (tierWin (xorshiftStar (3 : ℕ) % 20)).2
      = 10000000 := by
    rw [show (tierWin (xorshiftStar (3 : ℕ) % 20)).2 = 100000000 from by decide]
    exact holderRewardOf_exact (fun q _ => rfl) rfl (by norm_num)
  refine C8_arithmetic_policy.1 (fun q => q) ⟨0, 3, U64 - 1, 0⟩ 0 BET_AMOUNT 0
    (by norm_num) (by norm_num [U64, BET_AMOUNT]) (by exact hw) ?_
  show ¬ U64 - 1 + holderRewardOf (fun q => q)
      (tierWin (xorshiftStar (3 : ℕ) % 20)).2 < U64
  rw [hhr]
  norm_num [U64]

/-! ### Claim C9: the rewards_claimed bookkeeping field -/

/-- Claim C9 is contradicted by the code: `claim_winnings` withdraws the
claimable 500 lamports but returns the `UserVault` record untouched —
`rewards_claimed` stays at the 0 it was created with and is never
incremented anywhere in the program. -/
theorem C9_rewards_claimed_static :
    claim_winnings ⟨0⟩ (RENT + 500) 777 = .ok (⟨0⟩, RENT, 1277) ∧
    create_user_vault.rewards_claimed = 0 := ⟨rfl, rfl⟩

/-! ### Claim C10: no per-cycle payout tracking -/

/-- Claim C10: nothing records which holders were already paid this
cycle — when the preconditions hold, a distribution succeeds, and as
long as it leaves the pool positive (so `lastPayoutTime` is not reset),
the very same caller can immediately distribute again at the same
timestamp, receiving `floor(current pool / holderCount)` again. -/
theorem C10_no_per_cycle_tracking :
    ∀ now (v : Vault) vl (reg : HolderRegistry) uvl uvl2 c,
      -2 ^ 62 ≤ v.last_payout_time → v.last_payout_time ≤ 2 ^ 62 →
      v.last_payout_time + PAYOUT_INTERVAL ≤ now →
      0 < v.total_holder_rewards → c ∈ reg.holders →
      ∃ out, distribute_holder_rewards now v vl reg uvl c = .ok out ∧
        (0 < out.1.total_holder_rewards →
          ∃ out2, distribute_holder_rewards now out.1 out.2.1 reg uvl2 c = .ok out2 ∧
            out2.1.total_holder_rewards
                + out.1.total_holder_rewards / reg.holders.length
              = out.1.total_holder_rewards) := by
  intro now v vl reg uvl uvl2 c hb1 hb2 htime hpool hmem
  have hlen : 0 < reg.holders.length := List.length_pos_of_mem hmem
  have ht : i64add v.last_payout_time PAYOUT_INTERVAL ≤ now := by
    rw [i64add_small hb1 hb2]
    rw [show PAYOUT_INTERVAL = 86400 from rfl] at htime
    exact htime
  have hok1 := @distribute_ok_of_conds now v vl reg uvl c ht hpool hlen hmem
  by_cases hP : v.total_holder_rewards - v.total_holder_rewards / reg.holders.length = 0
  · refine ⟨_, hok1, fun hpos => ?_⟩
    have hpos2 : 0 < v.total_holder_rewards
        - v.total_holder_rewards / reg.holders.length := hpos
    omega
  · rw [if_neg hP] at hok1
    refine ⟨_, hok1, fun hpos => ?_⟩
    have hpos2 : 0 < v.total_holder_rewards
        - v.total_holder_rewards / reg.holders.length := hpos
    have hok2 := @distribute_ok_of_conds now
      { spin := v.spin, seed := v.seed,
        total_holder_rewards := v.total_holder_rewards
          - v.total_holder_rewards / reg.holders.length,
        last_payout_time := v.last_payout_time }
      (wsub64 vl (v.total_holder_rewards / reg.holders.length)) reg uvl2 c
      (by exact ht) (by exact hpos2) hlen hmem
    refine ⟨_, hok2, ?_⟩
    show (v.total_holder_rewards - v.total_holder_rewards / reg.holders.length)
        - (v.total_holder_rewards - v.total_holder_rewards / reg.holders.length)
            / reg.holders.length
      + (v.total_holder_rewards - v.total_holder_rewards / reg.holders.length)
          / reg.holders.length
      = v.total_holder_rewards - v.total_holder_rewards / reg.holders.length
    have hd := Nat.div_le_self
      (v.total_holder_rewards - v.total_holder_rewards / reg.holders.length)
      reg.holders.length
    omega

/-- Witness for C10: from pool 1000 with two holders, holder 7 collects a
share of 500 and then immediately collects 250 more in the same cycle. -/
theorem C10_no_per_cycle_tracking_witness :
    ∃ out out2,
      distribute_holder_rewards 86400 ⟨0, RENT, 1000, 0⟩ 5000 ⟨[7, 8], 0⟩ 0 7
        = .ok out ∧
      distribute_holder_rewards 86400 out.1 out.2.1 ⟨[7, 8], 0⟩ 0 7 = .ok out2 := by
  obtain ⟨out, hok, hrest⟩ := C10_no_per_cycle_tracking 86400 ⟨0, RENT, 1000, 0⟩ 5000
    ⟨[7, 8], 0⟩ 0 0 7 (by norm_num) (by norm_num)
    (by norm_num [PAYOUT_INTERVAL]) (by norm_num) (by simp)
  have hconc : distribute_holder_rewards 86400 ⟨0, RENT, 1000, 0⟩ 5000 ⟨[7, 8], 0⟩ 0 7
      = .ok (⟨0, RENT, 500, 0⟩, wsub64 5000 500, wadd64 0 500) := rfl
  have hout : out = (⟨0, RENT, 500, 0⟩, wsub64 5000 500, wadd64 0 500) :=
    Except.ok.inj (hok.symm.trans hconc)
  obtain ⟨out2, hok2, -⟩ := hrest (by rw [hout]; norm_num)
  exact ⟨out, out2, hok, hok2⟩

end Slots
